import Mathlib

/-!
Shallow embedding of the Karta language front-end from `src/bin/utils/blob.rs`:
tokenizer, atom interning, AST heap, recursive-descent parser and the chained
query API.  Machine integers (`usize`, `i64`) are modelled as `Nat`/`Int`;
`HashMap` values are modelled as association lists whose observable operations
(`get`, `insert` with last-write-wins, `len`) coincide with the source's use;
Rust panics are modelled as a distinguished `fatal` outcome.  Source text is
modelled as `List Char`; the source code freely mixes byte indices (string
slices) and char indices (`chars().nth`), which coincide on the ASCII inputs
all claims are about.  `f64` values are kept abstract: a parsed float is
represented by its source text, and numeric casts record which conversion the
code performed instead of computing a floating-point value.
-/

namespace Karta

/-- Outcome of a fallible operation: `err` is a `Result::Err(String)` the
source returns to its caller, `fatal` is a Rust panic (`unwrap`/`expect`
failure or an explicit `panic!`-style abort). -/
inductive PErr where
  | err (msg : String)
  | fatal (msg : String)
deriving Repr, DecidableEq

/-- `TokenKind` from the source (variant names match the Rust `Debug`
output used in parse error messages). -/
inductive TokenKind where
  | LeftBrace
  | RightBrace
  | LeftSquare
  | RightSquare
  | Atom
  | Integer
  | Float
  | Char
  | String
  | Identifier
  | Comma
  | Assign
  | EndOfFile
deriving Repr, DecidableEq

/-- The string `format!("{:?}", kind)` produces for a `TokenKind` (Rust
`derive(Debug)` prints the bare variant name). -/
def kindDebug : TokenKind → String
  | .LeftBrace => "LeftBrace"
  | .RightBrace => "RightBrace"
  | .LeftSquare => "LeftSquare"
  | .RightSquare => "RightSquare"
  | .Atom => "Atom"
  | .Integer => "Integer"
  | .Float => "Float"
  | .Char => "Char"
  | .String => "String"
  | .Identifier => "Identifier"
  | .Comma => "Comma"
  | .Assign => "Assign"
  | .EndOfFile => "EndOfFile"

/-- The apostrophe character `'` (written via its code point). -/
def squote : Char := Char.ofNat 39

/-- The double quote character `"` (written via its code point). -/
def dquote : Char := Char.ofNat 34

/-- The opening brace character (written via its code point). -/
def lbrace : Char := Char.ofNat 123

/-- The closing brace character (written via its code point). -/
def rbrace : Char := Char.ofNat 125

/-- `TokenKind::from_string`.  The source asserts the string is nonempty and
then inspects it; the empty case (unreachable at every call site) is mapped
to `Identifier`.  (Named at top level: inside the `TokenKind` namespace the
identifier `Char` would resolve to the constructor.) -/
def kind_from_string (s : List Char) : TokenKind :=
  if s = [lbrace] then .LeftBrace
  else if s = [rbrace] then .RightBrace
  else if s = ['['] then .LeftSquare
  else if s = [']'] then .RightSquare
  else if s = [','] then .Comma
  else if s = ['='] then .Assign
  else
    match s with
    | c :: _ =>
      if c = '.' then .Atom
      else if c.isDigit then .Integer
      else .Identifier
    | [] => .Identifier

/-- `Span`: line/column position recorded on a token. -/
structure Span where
  line : Nat
  col : Nat
deriving Repr, DecidableEq

/-- `Token`: text data, kind, and position. -/
structure Token where
  data : List Char
  kind : TokenKind
  span : Span
deriving Repr, DecidableEq

/-- `TokenizerState` from the source. -/
inductive TokenizerState where
  | none
  | whitespace
  | integer
  | atom
  | char
  | string
  | symbol
  | float
  | comment
deriving Repr, DecidableEq

/-- The `Tokenizer` struct (field order as in the source). -/
structure Tokenizer where
  cursor : Nat
  starting_cursor : Nat
  file_contents : List Char
  line : Nat
  col : Nat
  state : TokenizerState
deriving Repr

/-- `Tokenizer::new`. -/
def Tokenizer.mkNew (file_contents : List Char) : Tokenizer :=
  { cursor := 0, starting_cursor := 0, file_contents := file_contents,
    line := 1, col := 1, state := .none }

/-- `Tokenizer::eof`: whether `chars().nth(cursor)` is `None`. -/
def Tokenizer.eof (t : Tokenizer) : Bool :=
  t.file_contents[t.cursor]?.isNone

/-- `Tokenizer::advance`: bump cursor and column, switch state. -/
def Tokenizer.advance (t : Tokenizer) (new_state : TokenizerState) : Tokenizer :=
  { t with cursor := t.cursor + 1, col := t.col + 1, state := new_state }

/-- `Tokenizer::add_token`: package `file_contents[starting_cursor..cursor]`
as a token (recording `col - 1`), reset `starting_cursor` and the state. -/
def Tokenizer.add_token (t : Tokenizer) (kind : TokenKind) (tokens : List Token) :
    Tokenizer × List Token :=
  let token_data := (t.file_contents.drop t.starting_cursor).take (t.cursor - t.starting_cursor)
  let token : Token := { data := token_data, kind := kind,
                         span := { line := t.line, col := t.col - 1 } }
  ({ t with starting_cursor := t.cursor, state := .none }, tokens ++ [token])

/-- One iteration of the `while !self.eof()` loop body of
`Tokenizer::tokenize`, given the character `c` at the cursor.  The match arms
appear in source order; arms guarded by `self.eof()` are kept even though the
loop guard makes them unreachable (the guard is false whenever the body
runs). -/
def tokenizeStep (c : Char) (t : Tokenizer) (tokens : List Token) :
    Except String (Tokenizer × List Token) :=
  match t.state with
  | .none =>
    if c.isWhitespace then .ok (t.advance .whitespace, tokens)
    else if c.isDigit then .ok (t.advance .integer, tokens)
    else if c = '.' then .ok (t.advance .atom, tokens)
    else if c = squote then .ok (t.advance .char, tokens)
    else if c = dquote then .ok (t.advance .string, tokens)
    else if c = ';' then .ok (t.advance .comment, tokens)
    else .ok (t.advance .symbol, tokens)
  | .whitespace =>
    if t.eof || !c.isWhitespace then
      .ok ({ t with starting_cursor := t.cursor, state := .none }, tokens)
    else
      let t := if c = '\n' then { t with line := t.line + 1, col := 1 } else t
      .ok (t.advance .whitespace, tokens)
  | .integer =>
    if c = '.' then .ok (t.advance .float, tokens)
    else if t.eof || !c.isDigit then .ok (t.add_token .Integer tokens)
    else .ok (t.advance .integer, tokens)
  | .atom =>
    if t.eof || (!c.isAlphanum && c ≠ '_' && c ≠ '-' && c ≠ '?') then
      .ok (t.add_token .Atom tokens)
    else .ok (t.advance .atom, tokens)
  | .char =>
    if t.eof then .error "error: char goes to end of file"
    else if c = squote then
      .ok ((t.advance .none).add_token .Char tokens)
    else .ok (t.advance .char, tokens)
  | .string =>
    if t.eof then .error "error: string goes to end of file"
    else if c = dquote then
      .ok ((t.advance .none).add_token .String tokens)
    else .ok (t.advance .string, tokens)
  | .symbol =>
    if t.eof || kind_from_string
        ((t.file_contents.drop t.starting_cursor).take (t.cursor + 1 - t.starting_cursor))
        = .Identifier then
      let token_data := (t.file_contents.drop t.starting_cursor).take (t.cursor - t.starting_cursor)
      .ok (t.add_token (kind_from_string token_data) tokens)
    else .ok (t.advance .symbol, tokens)
  | .float =>
    if t.eof || !c.isDigit then .ok (t.add_token .Float tokens)
    else .ok (t.advance .float, tokens)
  | .comment =>
    if c = '\n' then
      let t2 := { t with line := t.line + 1, col := 1, starting_cursor := t.cursor, state := TokenizerState.none }
      .ok (t2, tokens)
    else .ok (t.advance .comment, tokens)

/-- The `while !self.eof()` loop of `Tokenizer::tokenize`, with fuel (each
loop iteration consumes one unit; a cursor position is visited at most twice,
so `2 * length + 2` units always suffice — see `Tokenizer.tokenize`).  When
the loop exits, a final `EndOfFile` token is appended. -/
def tokenizeGo : Nat → Tokenizer → List Token → Except String (List Token)
  | 0, _, _ => .error "tokenizer fuel exhausted"
  | fuel + 1, t, tokens =>
    match t.file_contents[t.cursor]? with
    | Option.none => .ok (t.add_token .EndOfFile tokens).2
    | Option.some c =>
      match tokenizeStep c t tokens with
      | .ok (t2, tokens2) => tokenizeGo fuel t2 tokens2
      | .error e => .error e

/-- `Tokenizer::tokenize` run from `Tokenizer::new` on the given contents. -/
def Tokenizer.tokenize (file_contents : List Char) : Except String (List Token) :=
  tokenizeGo (2 * file_contents.length + 2) (Tokenizer.mkNew file_contents) []

/-- `Ast` from the source.  `AtomId`/`AstId` newtypes are flattened to `Nat`;
`Float` keeps its source text (`f64` values are not modelled); `Char` holds
the byte as a `Nat`; `Map` is the association-list model of
`HashMap<AtomId, AstId>`. -/
inductive Ast where
  | int (value : Int)
  | float (text : String)
  | char (value : Nat)
  | string (value : String)
  | atom (value : Nat)
  | map (fields : List (Nat × Nat))
deriving Repr, DecidableEq

/-- `HashMap::get` on the association-list model. -/
def mapGet : List (Nat × Nat) → Nat → Option Nat
  | [], _ => Option.none
  | (k, v) :: rest, key => if k = key then some v else mapGet rest key

/-- `HashMap::insert` on the association-list model: replace the existing
binding or append a new one (last write wins, as for `HashMap`). -/
def mapInsert : List (Nat × Nat) → Nat → Nat → List (Nat × Nat)
  | [], key, value => [(key, value)]
  | (k, v) :: rest, key, value =>
    if k = key then (key, value) :: rest else (k, v) :: mapInsert rest key value

/-- Lookup in the atom table (`HashMap<String, AtomId>` modelled as an
association list in insertion order; keys are unique by construction). -/
def lookupAtom : List (String × Nat) → String → Option Nat
  | [], _ => Option.none
  | (k, v) :: rest, key => if k = key then some v else lookupAtom rest key

/-- `put_atoms_in_set`: return the existing id, or insert with the next id
(`atoms.len()`, which equals the list length since keys are unique). -/
def put_atoms_in_set (atoms : List (String × Nat)) (atom : String) :
    Nat × List (String × Nat) :=
  match lookupAtom atoms atom with
  | some the_atom => (the_atom, atoms)
  | Option.none => (atoms.length, atoms ++ [(atom, atoms.length)])

/-- `AstHeap::insert`: append and return the fresh id (`asts.len()`). -/
def heapInsert (heap : List Ast) (ast : Ast) : Nat × List Ast :=
  (heap.length, heap ++ [ast])

/-- `AstHeap::nil_atom`: the constant `AstId::new(0)`. -/
def nil_atom : Nat := 0

/-- `AstHeap::make_list_node`: a fresh two-field map
`{head_atom ↦ head, tail_atom ↦ nil_atom}`. -/
def make_list_node (heap : List Ast) (head_atom head tail_atom : Nat) :
    Nat × List Ast :=
  let fields := mapInsert (mapInsert [] head_atom head) tail_atom nil_atom
  heapInsert heap (.map fields)

/-- The Rust `Debug` rendering of an `Ast`, as interpolated into query error
messages.  For `Map`, Rust's `HashMap` Debug output has unspecified entry
order; entries are rendered in insertion order here (no claim depends on a
`Map`'s rendering), and for `Float` the source text stands in for the `f64`
Debug output. -/
def astDebug : Ast → String
  | .int x => "Int(" ++ toString x ++ ")"
  | .float s => "Float(" ++ s ++ ")"
  | .char c => "Char(" ++ toString c ++ ")"
  | .string s => "String(" ++ String.mk [dquote] ++ s ++ String.mk [dquote] ++ ")"
  | .atom a => "Atom(AtomId(" ++ toString a ++ "))"
  | .map m =>
    "Map(" ++ String.mk [lbrace]
      ++ String.intercalate ", "
           (m.map (fun p => "AtomId(" ++ toString p.1 ++ "): AstId(" ++ toString p.2 ++ ")"))
      ++ String.mk [rbrace] ++ ")"

/-- The combined state threaded through the parser: the `Parser` struct
(`cursor`, `tokens`) together with the `&mut AstHeap` and
`&mut HashMap<String, AtomId>` arguments. -/
structure ParserSt where
  cursor : Nat
  tokens : List Token
  heap : List Ast
  atoms : List (String × Nat)
deriving Repr, DecidableEq

namespace Parser

/-- `Parser::peek` — `tokens[cursor]` indexing panics when out of range. -/
def peek (st : ParserSt) : Option Token :=
  st.tokens[st.cursor]?

/-- `Parser::parse_error`: format from the peeked token's span (`peek`
panics when the cursor is out of range, hence the `Option`). -/
def parse_error (st : ParserSt) (expected got : String) : Option String :=
  (peek st).map fun t =>
    "error: " ++ toString t.span.line ++ ":" ++ toString t.span.col
      ++ ": expected " ++ expected ++ ", got " ++ got

/-- `Parser::accept`: pop the next token when its kind matches (checks
end-of-stream first, so it never panics). -/
def accept (kind : TokenKind) (st : ParserSt) : Option (Token × ParserSt) :=
  match st.tokens[st.cursor]? with
  | some t =>
    if t.kind = kind then some (t, { st with cursor := st.cursor + 1 })
    else Option.none
  | Option.none => Option.none

/-- `Parser::expect`: peek (panicking when out of range), build the error
message, then accept-or-error. -/
def expect (kind : TokenKind) (st : ParserSt) : Except PErr (Token × ParserSt) :=
  match st.tokens[st.cursor]? with
  | Option.none => .error (.fatal "index out of bounds in peek")
  | some peeked =>
    let err := "error: " ++ toString peeked.span.line ++ ":" ++ toString peeked.span.col
      ++ ": expected " ++ kindDebug kind ++ ", got " ++ kindDebug peeked.kind
    match accept kind st with
    | some r => .ok r
    | Option.none => .error (.err err)

end Parser

/-- The decimal value of a digit string. -/
def digitsVal (s : List Char) : Nat :=
  s.foldl (fun acc c => 10 * acc + (c.toNat - 48)) 0

/-- `i64::MAX`. -/
def i64Max : Nat := 9223372036854775807

/-- Model of `str::parse::<i64>` restricted to the inputs the parser feeds
it: an `Integer` token's data is always a nonempty run of decimal digits
(the tokenizer enters the `Integer` state only on a digit and leaves it at
the first non-digit), so sign handling is omitted; parsing fails exactly on
overflow past `i64::MAX`. -/
def parse_i64 (s : List Char) : Option Int :=
  if s = [] then Option.none
  else if s.all Char.isDigit then
    if digitsVal s ≤ i64Max then some (Int.ofNat (digitsVal s)) else Option.none
  else Option.none

/-- The three mutually recursive pieces of `Parser::parse_expression`:
the expression production itself, the map-literal `loop`, and the
list-literal `while` loop (carrying `head_atom`, `tail_atom`, `retval`,
`curr_id`).  Combined into one fuel-indexed function so the recursion is
structural on the fuel. -/
inductive PMode where
  | expr
  | mapLoop (children : List (Nat × Nat))
  | listLoop (head_atom tail_atom retval curr_id : Nat)

/-- `Parser::parse_expression` (mode `.expr`) together with its two inner
loops, as a single fuel-indexed recursion.  Fuel exhaustion is the analogue
of the unbounded recursion the source permits (stack exhaustion on deeply
nested input, an accepted limitation); every claim is settled either at the
fuel `Parser.parse` supplies or for all fuels. -/
def parse_go : Nat → PMode → ParserSt → Except PErr (Nat × ParserSt)
  | 0, _, _ => .error (.fatal "recursion fuel exhausted")
  | fuel + 1, mode, st =>
    match mode with
    | .expr =>
      match Parser.accept .Integer st with
      | some (token, st1) =>
        match parse_i64 token.data with
        | some value =>
          let r := heapInsert st1.heap (.int value)
          .ok (r.1, { st1 with heap := r.2 })
        | Option.none => .error (.fatal "i64 parse failed")
      | Option.none =>
      match Parser.accept .Float st with
      | some (token, st1) =>
        let r := heapInsert st1.heap (.float (String.mk token.data))
        .ok (r.1, { st1 with heap := r.2 })
      | Option.none =>
      match Parser.accept .Char st with
      | some (token, st1) =>
        match token.data[1]? with
        | some c =>
          let r := heapInsert st1.heap (.char c.toNat)
          .ok (r.1, { st1 with heap := r.2 })
        | Option.none => .error (.fatal "byte index out of bounds")
      | Option.none =>
      match Parser.accept .String st with
      | some (token, st1) =>
        let stripped := (token.data.take (token.data.length - 1)).drop 1
        let r := heapInsert st1.heap (.string (String.mk stripped))
        .ok (r.1, { st1 with heap := r.2 })
      | Option.none =>
      match Parser.accept .Atom st with
      | some (token, st1) =>
        let pa := put_atoms_in_set st1.atoms (String.mk token.data)
        let r := heapInsert st1.heap (.atom pa.1)
        .ok (r.1, { st1 with atoms := pa.2, heap := r.2 })
      | Option.none =>
      match Parser.accept .LeftBrace st with
      | some (_, st1) => parse_go fuel (.mapLoop []) st1
      | Option.none =>
      match Parser.accept .LeftSquare st with
      | some (_, st1) =>
        let ph := put_atoms_in_set st1.atoms ".head"
        let pt := put_atoms_in_set ph.2 ".tail"
        let st2 := { st1 with atoms := pt.2 }
        match Parser.accept .RightSquare st2 with
        | some (_, st3) => .ok (nil_atom, st3)
        | Option.none =>
          match parse_go fuel .expr st2 with
          | .error e => .error e
          | .ok (head, st3) =>
            let r := make_list_node st3.heap ph.1 head pt.1
            parse_go fuel (.listLoop ph.1 pt.1 r.1 r.1) { st3 with heap := r.2 }
      | Option.none =>
      match Parser.peek st with
      | Option.none => .error (.fatal "index out of bounds in peek")
      | some t =>
        .error (.err ("error: " ++ toString t.span.line ++ ":" ++ toString t.span.col
          ++ ": expected an expression, got " ++ kindDebug t.kind))
    | .mapLoop children =>
      match parse_go fuel .expr st with
      | .error e => .error e
      | .ok (key_ast_id, st1) =>
        match st1.heap[key_ast_id]? with
        | Option.none => .error (.fatal "unwrap on None")
        | some key_ast =>
          match key_ast with
          | .atom s =>
            match Parser.expect .Assign st1 with
            | .error e => .error e
            | .ok (_, st2) =>
              match parse_go fuel .expr st2 with
              | .error e => .error e
              | .ok (value, st3) =>
                let children2 := mapInsert children s value
                match Parser.accept .Comma st3 with
                | some (_, st4) => parse_go fuel (.mapLoop children2) st4
                | Option.none =>
                  match Parser.expect .RightBrace st3 with
                  | .error e => .error e
                  | .ok (_, st4) =>
                    let r := heapInsert st4.heap (.map children2)
                    .ok (r.1, { st4 with heap := r.2 })
          | _ => .error (.err "bad!")
    | .listLoop head_atom tail_atom retval curr_id =>
      match Parser.accept .Comma st with
      | Option.none =>
        match Parser.expect .RightSquare st with
        | .error e => .error e
        | .ok (_, st1) => .ok (retval, st1)
      | some (_, st1) =>
        match parse_go fuel .expr st1 with
        | .error e => .error e
        | .ok (head, st2) =>
          let r := make_list_node st2.heap head_atom head tail_atom
          let st3 := { st2 with heap := r.2 }
          match st3.heap[curr_id]? with
          | some (Ast.map curr_map) =>
            let heap2 := st3.heap.set curr_id (.map (mapInsert curr_map tail_atom r.1))
            parse_go fuel (.listLoop head_atom tail_atom retval r.1) { st3 with heap := heap2 }
          | some _ => .error (.fatal "unreachable")
          | Option.none => .error (.fatal "unwrap on None")

/-- `Parser::parse_expression` at the top level. -/
def parse_expression (fuel : Nat) (st : ParserSt) : Except PErr (Nat × ParserSt) :=
  parse_go fuel .expr st

/-- `Parser::parse`: tokenize (the source calls `.unwrap()` on the result,
so a tokenizer error is a panic, not a returned error), then parse one
expression.  The fuel `2 * tokens + 2` dominates the recursion depth: every
recursive call either first consumes a token or is the single loop-entry
call of a consumed `{`/`[` token. -/
def Parser.parse (file_contents : List Char) (ast_heap : List Ast)
    (atoms : List (String × Nat)) : Except PErr (Nat × ParserSt) :=
  match Tokenizer.tokenize file_contents with
  | .error e => .error (.fatal e)
  | .ok tokens => parse_go (2 * tokens.length + 2) .expr
      { cursor := 0, tokens := tokens, heap := ast_heap, atoms := atoms }

/-- `KartaFile`: atom table, root handle, AST heap. -/
structure KartaFile where
  atoms : List (String × Nat)
  root : Nat
  ast_heap : List Ast
deriving Repr, DecidableEq

/-- `KartaFile::new`: intern the four built-in atoms, seed the heap with the
`.nil` atom node, then parse. -/
def KartaFile.new (file_contents : String) : Except PErr KartaFile :=
  let p1 := put_atoms_in_set [] ".nil"
  let nil_atom_id := p1.1
  let p2 := put_atoms_in_set p1.2 ".t"
  let p3 := put_atoms_in_set p2.2 ".head"
  let p4 := put_atoms_in_set p3.2 ".tail"
  let h1 := heapInsert [] (.atom nil_atom_id)
  match Parser.parse file_contents.toList h1.2 p4.2 with
  | .error e => .error e
  | .ok (root, st) => .ok { atoms := st.atoms, root := root, ast_heap := st.heap }

/-- `KartaQuery`: a borrowed document and the current cursor
(`Result<AstId, String>`). -/
structure KartaQuery where
  file : KartaFile
  current_result : Except String Nat

/-- `KartaFile::query`: start at the root, `Ok`. -/
def KartaFile.query (f : KartaFile) : KartaQuery :=
  { file := f, current_result := .ok f.root }

/-- `KartaQuery::get_atom` (`get_field` in the spec).  `none` models the
`expect` panic on an out-of-range handle; otherwise the query is returned,
updated per the source: error cursors and never-interned names are no-ops,
a map either yields the entry or falls back to `AstId::new(0)`, and a
non-map records an error. -/
def KartaQuery.get_atom (q : KartaQuery) (field : String) : Option KartaQuery :=
  match q.current_result with
  | .error _ => some q
  | .ok current =>
    match q.file.ast_heap[current]? with
    | Option.none => Option.none
    | some root_ast =>
      match lookupAtom q.file.atoms field with
      | Option.none => some q
      | some field_atom_id =>
        match root_ast with
        | .map m =>
          some { q with current_result := .ok ((mapGet m field_atom_id).getD 0) }
        | _ =>
          let msg := "cannot call `get` on " ++ astDebug root_ast ++ " type AST"
          some { q with current_result := .error msg }

/-- Result of `as_int::<T>`: either the exact `i64` the code produced, or a
record that the code performed an `f64`-to-integer cast (whose numeric value
is outside this embedding, floats being unmodelled). -/
inductive IntCast where
  | exact (value : Int)
  | fromFloat (text : String)
deriving Repr, DecidableEq

/-- `KartaQuery::as_int`: `Int`/`Char` convert exactly, `Float` performs a
float cast, anything else is an error; an errant cursor returns its error.
`.fatal` models the `expect` panic on an out-of-range handle. -/
def KartaQuery.as_int (q : KartaQuery) : Except PErr IntCast :=
  match q.current_result with
  | .ok current =>
    match q.file.ast_heap[current]? with
    | Option.none => .error (.fatal "couldn't get Ast for AstId")
    | some ast =>
      match ast with
      | .int x => .ok (.exact x)
      | .float s => .ok (.fromFloat s)
      | .char c => .ok (.exact c)
      | _ => .error (.err ("cannot convert " ++ astDebug ast ++ " to int"))
  | .error e => .error (.err e)

/-- Result of `as_float::<T>`: records which conversion the code performed
(`f64` values themselves are unmodelled). -/
inductive FloatCast where
  | fromInt (value : Int)
  | exact (text : String)
  | fromChar (value : Nat)
deriving Repr, DecidableEq

/-- `KartaQuery::as_float`: `Int`/`Float`/`Char` convert, anything else is an
error; an errant cursor returns its error. -/
def KartaQuery.as_float (q : KartaQuery) : Except PErr FloatCast :=
  match q.current_result with
  | .ok current =>
    match q.file.ast_heap[current]? with
    | Option.none => .error (.fatal "couldn't get Ast for AstId")
    | some ast =>
      match ast with
      | .int x => .ok (.fromInt x)
      | .float s => .ok (.exact s)
      | .char c => .ok (.fromChar c)
      | _ => .error (.err ("cannot convert " ++ astDebug ast ++ " to float"))
  | .error e => .error (.err e)

/-- `KartaQuery::as_string`: only a `String` node succeeds. -/
def KartaQuery.as_string (q : KartaQuery) : Except PErr String :=
  match q.current_result with
  | .ok current =>
    match q.file.ast_heap[current]? with
    | Option.none => .error (.fatal "couldn't get Ast for AstId")
    | some ast =>
      match ast with
      | .string x => .ok x
      | _ => .error (.err ("cannot convert " ++ astDebug ast ++ " to string"))
  | .error e => .error (.err e)

/-- `KartaQuery::truthy`: an `Atom` is truthy iff its atom id is nonzero;
every other node is truthy. -/
def KartaQuery.truthy (q : KartaQuery) : Except PErr Bool :=
  match q.current_result with
  | .ok current =>
    match q.file.ast_heap[current]? with
    | Option.none => .error (.fatal "couldn't get Ast for AstId")
    | some ast =>
      match ast with
      | .atom x => .ok (x != 0)
      | _ => .ok true
  | .error e => .error (.err e)

/-- `KartaQuery::falsey`: `Ok(!(self.truthy()?))`. -/
def KartaQuery.falsey (q : KartaQuery) : Except PErr Bool :=
  match q.truthy with
  | .ok b => .ok !b
  | .error e => .error e

/-- The decimal digit characters: a text matches `[0-9]+` exactly when it is
a nonempty list of members of `digits`. -/
def digits : List Char := ['0', '1', '2', '3', '4', '5', '6', '7', '8', '9']

/-- The atom table as `KartaFile::new` builds it before parsing: the four
built-in atoms in interning order (proved equal to the `new` construction by
`KartaFile_new_unfold`). -/
def initAtoms : List (String × Nat) :=
  [(".nil", 0), (".t", 1), (".head", 2), (".tail", 3)]

/-- The document invariant behind claim C2: heap handle 0 holds the `Atom`
node whose atom id is the id interned for `.nil` (namely 0). -/
def heapNilInv (st : ParserSt) : Prop :=
  st.heap[0]? = some (Ast.atom 0) ∧ lookupAtom st.atoms ".nil" = some 0

/-- Side condition under which each `parse_go` mode preserves `heapNilInv`:
the list loop's in-place `tail` mutation must target a nonzero handle (which
it always does, the mutated cell being a freshly inserted map in a nonempty
heap). -/
def modeInv : PMode → Prop
  | .listLoop _ _ _ curr_id => curr_id ≠ 0
  | _ => True

section Lemmas

/-- Character-class facts about a decimal digit, as the tokenizer's dispatch
tests them. -/
theorem digit_facts {c : Char} (h : c ∈ digits) :
    c.isDigit = true ∧ c.isWhitespace = false ∧ c ≠ '.' := by
  fin_cases h <;> exact ⟨rfl, rfl, by decide⟩

/-- Indexing an append past the left part. -/
theorem getElem?_append_add {α : Type} (pre l : List α) (i : Nat) :
    (pre ++ l)[pre.length + i]? = l[i]? := by
  rw [List.getElem?_append_right (by omega)]
  congr 1
  omega

/-- In the `Integer` state, a digit at the cursor just advances. -/
theorem tokenizeStep_integer_digit {c : Char} (t : Tokenizer) (tokens : List Token)
    (hst : t.state = .integer) (hc : c ∈ digits)
    (he : t.file_contents[t.cursor]? = some c) :
    tokenizeStep c t tokens = .ok (t.advance .integer, tokens) := by
  obtain ⟨hd, _, hdot⟩ := digit_facts hc
  simp [tokenizeStep, hst, Tokenizer.eof, he, hd, hdot]

/-- Scanning a run of digits in the `Integer` state advances the cursor and
column across the whole run, leaving everything else unchanged. -/
theorem tokenizeGo_digit_run (ds : List Char) (hds : ∀ c ∈ ds, c ∈ digits) :
    ∀ (pre rest : List Char) (fuel sc line col : Nat) (tokens : List Token),
    tokenizeGo (ds.length + fuel)
      ⟨pre.length, sc, pre ++ ds ++ rest, line, col, .integer⟩ tokens
    = tokenizeGo fuel
      ⟨pre.length + ds.length, sc, pre ++ ds ++ rest, line, col + ds.length, .integer⟩ tokens := by
  induction ds with
  | nil => intro pre rest fuel sc line col tokens; simp
  | cons d ds2 ih =>
    intro pre rest fuel sc line col tokens
    have hds2 : ∀ c ∈ ds2, c ∈ digits := fun c hc => hds c (List.mem_cons_of_mem d hc)
    have hget : (pre ++ (d :: ds2) ++ rest)[pre.length]? = some d := by
      rw [List.append_assoc]
      simpa using getElem?_append_add pre (d :: ds2 ++ rest) 0
    have hstep := tokenizeStep_integer_digit (c := d)
      ⟨pre.length, sc, pre ++ (d :: ds2) ++ rest, line, col, .integer⟩ tokens rfl
      (hds d (List.mem_cons_self d ds2)) (by simpa using hget)
    have hfuel : (d :: ds2).length + fuel = ds2.length + fuel + 1 := by
      simp only [List.length_cons]
      omega
    rw [hfuel]
    have h1 : tokenizeGo (ds2.length + fuel + 1)
        ⟨pre.length, sc, pre ++ (d :: ds2) ++ rest, line, col, .integer⟩ tokens
        = tokenizeGo (ds2.length + fuel)
          ⟨pre.length + 1, sc, pre ++ (d :: ds2) ++ rest, line, col + 1, .integer⟩ tokens := by
      simp only [tokenizeGo, hget, hstep, Tokenizer.advance]
    rw [h1]
    have h2 := ih hds2 (pre ++ [d]) rest fuel sc line (col + 1) tokens
    simp only [List.length_append, List.length_cons, List.length_nil, List.append_assoc,
      List.cons_append, List.nil_append] at h2 ⊢
    convert h2 using 3 <;> omega

/-- One successful loop iteration, as a rewrite between fuels. -/
theorem tokenizeGo_step (fuel : Nat) (t t2 : Tokenizer) (tokens tokens2 : List Token)
    {c : Char} (hget : t.file_contents[t.cursor]? = some c)
    (hstep : tokenizeStep c t tokens = .ok (t2, tokens2)) :
    tokenizeGo (fuel + 1) t tokens = tokenizeGo fuel t2 tokens2 := by
  simp only [tokenizeGo, hget, hstep]

/-- Loop exit at end of input: the final `EndOfFile` token is appended. -/
theorem tokenizeGo_finish (fuel : Nat) (t : Tokenizer) (tokens : List Token)
    (hget : t.file_contents[t.cursor]? = Option.none) :
    tokenizeGo (fuel + 1) t tokens = .ok (t.add_token .EndOfFile tokens).2 := by
  simp only [tokenizeGo, hget]

/-- In the dispatch state, a digit advances into the `Integer` state. -/
theorem tokenizeStep_none_digit {c : Char} (t : Tokenizer) (tokens : List Token)
    (hst : t.state = TokenizerState.none) (hc : c ∈ digits) :
    tokenizeStep c t tokens = .ok (t.advance .integer, tokens) := by
  obtain ⟨hdig, hws, _⟩ := digit_facts hc
  simp [tokenizeStep, hst, hws, hdig]

/-- In the `Integer` state, a newline at the cursor emits the `Integer`
token. -/
theorem tokenizeStep_integer_nl (t : Tokenizer) (tokens : List Token)
    (hst : t.state = .integer) (he : t.file_contents[t.cursor]? = some '\n') :
    tokenizeStep '\n' t tokens = .ok (t.add_token .Integer tokens) := by
  have h1 : ('\n' : Char) = '.' ↔ False := by simp
  have h2 : ('\n' : Char).isDigit = false := by decide
  simp [tokenizeStep, hst, Tokenizer.eof, he, h1, h2]

/-- In the dispatch state, a newline advances into the `Whitespace` state. -/
theorem tokenizeStep_none_nl (t : Tokenizer) (tokens : List Token)
    (hst : t.state = TokenizerState.none) :
    tokenizeStep '\n' t tokens = .ok (t.advance .whitespace, tokens) := by
  have h1 : ('\n' : Char).isWhitespace = true := by decide
  simp [tokenizeStep, hst, h1]

/-- Tokenizing a bare digit run `[0-9]+` with nothing after it: the loop
reaches end of input while still inside the `Integer` state, so no `Integer`
token is ever emitted — the sole token produced is the final `EndOfFile`
token, carrying the digit text.  Stated for every fuel of the form
`|ds| + k + 2`, which covers the fuel `Tokenizer.tokenize` supplies. -/
theorem tokenizeGo_digits_bare (d : Char) (ds : List Char)
    (hd : d ∈ digits) (hds : ∀ c ∈ ds, c ∈ digits) (k : Nat) :
    tokenizeGo (ds.length + k + 2) (Tokenizer.mkNew (d :: ds)) []
      = .ok [⟨d :: ds, .EndOfFile, ⟨1, ds.length + 1⟩⟩] := by
  have hf1 : ds.length + k + 2 = (ds.length + (k + 1)) + 1 := by omega
  rw [hf1]
  have hget0 : (d :: ds)[0]? = some d := by simp
  rw [tokenizeGo_step _ _ _ _ _ hget0
    (tokenizeStep_none_digit (Tokenizer.mkNew (d :: ds)) [] rfl hd)]
  have hadv : (Tokenizer.mkNew (d :: ds)).advance .integer
      = ⟨[d].length, 0, [d] ++ ds ++ [], 1, 2, .integer⟩ := by
    simp [Tokenizer.mkNew, Tokenizer.advance]
  rw [hadv, tokenizeGo_digit_run ds hds [d] [] (k + 1) 0 1 2 []]
  have hgetn : ([d] ++ ds ++ [])[[d].length + ds.length]? = (Option.none : Option Char) := by
    apply List.getElem?_eq_none
    simp
    omega
  rw [tokenizeGo_finish _ _ _ hgetn]
  simp [Tokenizer.add_token]
  omega

/-- Tokenizing a digit run followed by a newline: the `Integer` token is
emitted when the newline is reached, and the final `EndOfFile` token carries
the newline. -/
theorem tokenizeGo_digits_nl (d : Char) (ds : List Char)
    (hd : d ∈ digits) (hds : ∀ c ∈ ds, c ∈ digits) (k : Nat) :
    tokenizeGo (ds.length + k + 4) (Tokenizer.mkNew (d :: ds ++ ['\n'])) []
      = .ok [⟨d :: ds, .Integer, ⟨1, ds.length + 1⟩⟩,
             ⟨['\n'], .EndOfFile, ⟨1, ds.length + 2⟩⟩] := by
  have hf1 : ds.length + k + 4 = (ds.length + (k + 3)) + 1 := by omega
  rw [hf1]
  have hget0 : (d :: ds ++ ['\n'])[0]? = some d := by simp
  rw [tokenizeGo_step _ _ _ _ _ hget0
    (tokenizeStep_none_digit (Tokenizer.mkNew (d :: ds ++ ['\n'])) [] rfl hd)]
  have hadv : (Tokenizer.mkNew (d :: ds ++ ['\n'])).advance .integer
      = ⟨[d].length, 0, [d] ++ ds ++ ['\n'], 1, 2, .integer⟩ := by
    simp [Tokenizer.mkNew, Tokenizer.advance]
  rw [hadv, tokenizeGo_digit_run ds hds [d] ['\n'] (k + 3) 0 1 2 []]
  -- the newline ends the Integer token
  have hgetnl : ([d] ++ ds ++ ['\n'])[[d].length + ds.length]? = some '\n' := by
    rw [show [d].length + ds.length = ([d] ++ ds).length from (List.length_append _ _).symm]
    exact List.getElem?_concat_length _ _
  have hf2 : k + 3 = (k + 2) + 1 := by omega
  rw [hf2]
  have hT1 : (⟨[d].length + ds.length, 0, [d] ++ ds ++ ['\n'], 1, 2 + ds.length,
      .integer⟩ : Tokenizer).add_token .Integer []
      = (⟨[d].length + ds.length, [d].length + ds.length, [d] ++ ds ++ ['\n'], 1,
          2 + ds.length, TokenizerState.none⟩,
         [⟨d :: ds, .Integer, ⟨1, ds.length + 1⟩⟩]) := by
    simp only [Tokenizer.add_token, Nat.sub_zero, List.drop_zero]
    rw [show [d].length + ds.length = ([d] ++ ds).length from (List.length_append _ _).symm,
      List.take_left]
    simp
    omega
  rw [tokenizeGo_step _ _ _ _ _ hgetnl (by rw [tokenizeStep_integer_nl _ _ rfl hgetnl, hT1])]
  -- the dispatch state advances past the newline into Whitespace
  have hf3 : k + 2 = (k + 1) + 1 := by omega
  rw [hf3]
  rw [tokenizeGo_step _ _ _ _ _ hgetnl (tokenizeStep_none_nl _ _ rfl)]
  -- end of input: the EndOfFile token carries the newline
  have hadv2 : (⟨[d].length + ds.length, [d].length + ds.length, [d] ++ ds ++ ['\n'], 1,
      2 + ds.length, TokenizerState.none⟩ : Tokenizer).advance .whitespace
      = ⟨([d].length + ds.length) + 1, [d].length + ds.length, [d] ++ ds ++ ['\n'], 1,
         (2 + ds.length) + 1, .whitespace⟩ := rfl
  rw [hadv2]
  have hgete : ([d] ++ ds ++ ['\n'])[([d].length + ds.length) + 1]? = (Option.none : Option Char) := by
    apply List.getElem?_eq_none
    simp
    omega
  rw [tokenizeGo_finish _ _ _ hgete]
  simp only [Tokenizer.add_token]
  rw [show [d].length + ds.length = ([d] ++ ds).length from (List.length_append _ _).symm,
    List.drop_left]
  simp
  omega

/-- Appending to an association list cannot disturb an existing binding. -/
theorem lookupAtom_append_of_some (l : List (String × Nat)) (p : String × Nat)
    {key : String} {v : Nat} (h : lookupAtom l key = some v) :
    lookupAtom (l ++ [p]) key = some v := by
  induction l with
  | nil => simp [lookupAtom] at h
  | cons q rest ih =>
    obtain ⟨k, w⟩ := q
    rw [List.cons_append]
    rw [lookupAtom] at h ⊢
    by_cases hk : k = key
    · simpa [hk] using h
    · simp only [hk, if_false] at h ⊢
      exact ih h

/-- `put_atoms_in_set` never disturbs an existing binding. -/
theorem put_preserves_lookup (atoms : List (String × Nat)) (name : String)
    {key : String} {v : Nat} (h : lookupAtom atoms key = some v) :
    lookupAtom (put_atoms_in_set atoms name).2 key = some v := by
  unfold put_atoms_in_set
  cases hl : lookupAtom atoms name with
  | some a => simpa using h
  | none => simpa using lookupAtom_append_of_some atoms _ h

/-- Appending to a nonempty list keeps its head. -/
theorem getElem?_zero_append {α : Type} (l : List α) (a : α) {x : α}
    (h : l[0]? = some x) : (l ++ [a])[0]? = some x := by
  cases l with
  | nil => simp at h
  | cons b rest => simpa using h

/-- `Parser::accept` only moves the token cursor: heap and atoms are
untouched. -/
theorem accept_components {kind : TokenKind} {st : ParserSt} {tok : Token}
    {st1 : ParserSt} (h : Parser.accept kind st = some (tok, st1)) :
    st1.heap = st.heap ∧ st1.atoms = st.atoms := by
  unfold Parser.accept at h
  split at h
  · split at h
    · simp only [Option.some.injEq, Prod.mk.injEq] at h
      obtain ⟨-, h2⟩ := h
      subst h2
      exact ⟨rfl, rfl⟩
    · exact absurd h (by simp)
  · exact absurd h (by simp)

/-- `Parser::expect` only moves the token cursor: heap and atoms are
untouched. -/
theorem expect_components {kind : TokenKind} {st : ParserSt} {tok : Token}
    {st1 : ParserSt} (h : Parser.expect kind st = .ok (tok, st1)) :
    st1.heap = st.heap ∧ st1.atoms = st.atoms := by
  unfold Parser.expect at h
  split at h
  · exact absurd h (by simp)
  · split at h
    next r heq =>
      simp only [Except.ok.injEq] at h
      subst h
      exact accept_components heq
    next heq => exact absurd h (by simp)

/-- `heapNilInv` transfers across states with equal heap and atoms. -/
theorem heapNilInv_of_components {st st1 : ParserSt} (hh : st1.heap = st.heap)
    (ha : st1.atoms = st.atoms) (h : heapNilInv st) : heapNilInv st1 := by
  unfold heapNilInv at *
  rw [hh, ha]
  exact h

/-- `heapNilInv` survives a heap append. -/
theorem heapNilInv_insert {st1 : ParserSt} (ast : Ast) (h : heapNilInv st1) :
    heapNilInv { st1 with heap := st1.heap ++ [ast] } :=
  ⟨getElem?_zero_append _ _ h.1, h.2⟩

/-- `heapNilInv` survives interning an atom. -/
theorem heapNilInv_put {st1 : ParserSt} (name : String) (h : heapNilInv st1) :
    heapNilInv { st1 with atoms := (put_atoms_in_set st1.atoms name).2 } :=
  ⟨h.1, put_preserves_lookup _ _ h.2⟩

/-- `heapNilInv` survives a write at a nonzero heap index. -/
theorem heapNilInv_set {st3 : ParserSt} (i : Nat) (a : Ast) (hi : i ≠ 0)
    (h : heapNilInv st3) : heapNilInv { st3 with heap := st3.heap.set i a } := by
  refine ⟨?_, h.2⟩
  show (st3.heap.set i a)[0]? = some (Ast.atom 0)
  rw [List.getElem?_set_ne hi]
  exact h.1

/-- A heap satisfying the invariant is nonempty. -/
theorem heapNilInv_len_pos {st : ParserSt} (h : heapNilInv st) :
    0 < st.heap.length := by
  have h1 := h.1
  cases hl : st.heap with
  | nil => rw [hl] at h1; simp at h1
  | cons a l => simp

/-- Every mode of `parse_go` preserves the `.nil`-at-zero document invariant:
heap insertions only append (and the heap is nonempty), the list loop's
in-place mutation targets a nonzero handle, and atom interning only appends
to the atom table. -/
theorem parse_go_preserves_inv :
    ∀ (fuel : Nat) (mode : PMode) (st : ParserSt) (r : Nat) (st2 : ParserSt),
    parse_go fuel mode st = .ok (r, st2) → modeInv mode → heapNilInv st →
    heapNilInv st2 := by
  intro fuel
  induction fuel with
  | zero =>
    intro mode st r st2 h
    simp [parse_go] at h
  | succ fuel ih =>
    intro mode st r st2 hok hmode hinv
    cases mode with
    | expr =>
      simp only [parse_go] at hok
      cases hI : Parser.accept .Integer st with
      | some p =>
        obtain ⟨tok, st1⟩ := p
        simp only [hI] at hok
        cases hpi : parse_i64 tok.data with
        | some v =>
          simp only [hpi, heapInsert, Except.ok.injEq, Prod.mk.injEq] at hok
          obtain ⟨-, h2⟩ := hok
          subst h2
          exact heapNilInv_insert _ (heapNilInv_of_components
            (accept_components hI).1 (accept_components hI).2 hinv)
        | none => simp only [hpi] at hok; simp at hok
      | none =>
      simp only [hI] at hok
      cases hF : Parser.accept .Float st with
      | some p =>
        obtain ⟨tok, st1⟩ := p
        simp only [hF, heapInsert, Except.ok.injEq, Prod.mk.injEq] at hok
        obtain ⟨-, h2⟩ := hok
        subst h2
        exact heapNilInv_insert _ (heapNilInv_of_components
          (accept_components hF).1 (accept_components hF).2 hinv)
      | none =>
      simp only [hF] at hok
      cases hC : Parser.accept .Char st with
      | some p =>
        obtain ⟨tok, st1⟩ := p
        simp only [hC] at hok
        cases hch : tok.data[1]? with
        | some c =>
          simp only [hch, heapInsert, Except.ok.injEq, Prod.mk.injEq] at hok
          obtain ⟨-, h2⟩ := hok
          subst h2
          exact heapNilInv_insert _ (heapNilInv_of_components
            (accept_components hC).1 (accept_components hC).2 hinv)
        | none => simp only [hch] at hok; simp at hok
      | none =>
      simp only [hC] at hok
      cases hS : Parser.accept .String st with
      | some p =>
        obtain ⟨tok, st1⟩ := p
        simp only [hS, heapInsert, Except.ok.injEq, Prod.mk.injEq] at hok
        obtain ⟨-, h2⟩ := hok
        subst h2
        exact heapNilInv_insert _ (heapNilInv_of_components
          (accept_components hS).1 (accept_components hS).2 hinv)
      | none =>
      simp only [hS] at hok
      cases hA : Parser.accept .Atom st with
      | some p =>
        obtain ⟨tok, st1⟩ := p
        simp only [hA, heapInsert, Except.ok.injEq, Prod.mk.injEq] at hok
        obtain ⟨-, h2⟩ := hok
        subst h2
        have hA2 := heapNilInv_of_components
          (accept_components hA).1 (accept_components hA).2 hinv
        exact ⟨getElem?_zero_append _ _ hA2.1, put_preserves_lookup _ _ hA2.2⟩
      | none =>
      simp only [hA] at hok
      cases hBr : Parser.accept .LeftBrace st with
      | some p =>
        obtain ⟨tok, st1⟩ := p
        simp only [hBr] at hok
        exact ih _ _ _ _ hok trivial (heapNilInv_of_components
          (accept_components hBr).1 (accept_components hBr).2 hinv)
      | none =>
      simp only [hBr] at hok
      cases hSq : Parser.accept .LeftSquare st with
      | some p =>
        obtain ⟨tok, st1⟩ := p
        simp only [hSq] at hok
        have hinv1 : heapNilInv st1 := heapNilInv_of_components
          (accept_components hSq).1 (accept_components hSq).2 hinv
        have hinv2 : heapNilInv { st1 with
            atoms := (put_atoms_in_set (put_atoms_in_set st1.atoms ".head").2 ".tail").2 } :=
          ⟨hinv1.1, put_preserves_lookup _ _ (put_preserves_lookup _ _ hinv1.2)⟩
        cases hRq : Parser.accept .RightSquare { st1 with
            atoms := (put_atoms_in_set (put_atoms_in_set st1.atoms ".head").2 ".tail").2 } with
        | some p2 =>
          obtain ⟨tok2, st3⟩ := p2
          simp only [hRq, Except.ok.injEq, Prod.mk.injEq] at hok
          obtain ⟨-, h2⟩ := hok
          subst h2
          exact heapNilInv_of_components
            (accept_components hRq).1 (accept_components hRq).2 hinv2
        | none =>
          simp only [hRq] at hok
          cases hsub : parse_go fuel .expr { st1 with
              atoms := (put_atoms_in_set (put_atoms_in_set st1.atoms ".head").2 ".tail").2 } with
          | error e => simp only [hsub] at hok; simp at hok
          | ok p2 =>
            obtain ⟨head, st3⟩ := p2
            simp only [hsub, make_list_node, heapInsert] at hok
            have hinv3 : heapNilInv st3 := ih _ _ _ _ hsub trivial hinv2
            exact ih _ _ _ _ hok (heapNilInv_len_pos hinv3).ne'
              (heapNilInv_insert _ hinv3)
      | none =>
      simp only [hSq] at hok
      cases hpk : Parser.peek st with
      | some t => simp only [hpk] at hok; simp at hok
      | none => simp only [hpk] at hok; simp at hok
    | mapLoop children =>
      simp only [parse_go] at hok
      cases hsub : parse_go fuel .expr st with
      | error e => simp only [hsub] at hok; simp at hok
      | ok p =>
        obtain ⟨key_id, st1⟩ := p
        simp only [hsub] at hok
        have hinv1 : heapNilInv st1 := ih _ _ _ _ hsub trivial hinv
        cases hget : st1.heap[key_id]? with
        | none => simp only [hget] at hok; simp at hok
        | some key_ast =>
          simp only [hget] at hok
          cases key_ast with
          | atom s =>
            cases hex : Parser.expect .Assign st1 with
            | error e => simp only [hex] at hok; simp at hok
            | ok p2 =>
              obtain ⟨tk, stx⟩ := p2
              simp only [hex] at hok
              have hinv2 : heapNilInv stx := heapNilInv_of_components
                (expect_components hex).1 (expect_components hex).2 hinv1
              cases hsub2 : parse_go fuel .expr stx with
              | error e => simp only [hsub2] at hok; simp at hok
              | ok p3 =>
                obtain ⟨value, st3⟩ := p3
                simp only [hsub2] at hok
                have hinv3 : heapNilInv st3 := ih _ _ _ _ hsub2 trivial hinv2
                cases hcm : Parser.accept .Comma st3 with
                | some p4 =>
                  obtain ⟨tk2, st4⟩ := p4
                  simp only [hcm] at hok
                  exact ih _ _ _ _ hok trivial (heapNilInv_of_components
                    (accept_components hcm).1 (accept_components hcm).2 hinv3)
                | none =>
                  simp only [hcm] at hok
                  cases hex2 : Parser.expect .RightBrace st3 with
                  | error e => simp only [hex2] at hok; simp at hok
                  | ok p5 =>
                    obtain ⟨tk3, st4⟩ := p5
                    simp only [hex2, heapInsert, Except.ok.injEq, Prod.mk.injEq] at hok
                    obtain ⟨-, h2⟩ := hok
                    subst h2
                    exact heapNilInv_insert _ (heapNilInv_of_components
                      (expect_components hex2).1 (expect_components hex2).2 hinv3)
          | int x => simp at hok
          | float x => simp at hok
          | char x => simp at hok
          | string x => simp at hok
          | map x => simp at hok
    | listLoop head_atom tail_atom retval curr_id =>
      simp only [parse_go] at hok
      cases hcm : Parser.accept .Comma st with
      | none =>
        simp only [hcm] at hok
        cases hex : Parser.expect .RightSquare st with
        | error e => simp only [hex] at hok; simp at hok
        | ok p =>
          obtain ⟨tk, st1⟩ := p
          simp only [hex, Except.ok.injEq, Prod.mk.injEq] at hok
          obtain ⟨-, h2⟩ := hok
          subst h2
          exact heapNilInv_of_components
            (expect_components hex).1 (expect_components hex).2 hinv
      | some p =>
        obtain ⟨tk, st1⟩ := p
        simp only [hcm] at hok
        cases hsub : parse_go fuel .expr st1 with
        | error e => simp only [hsub] at hok; simp at hok
        | ok p2 =>
          obtain ⟨head, stx⟩ := p2
          simp only [hsub, make_list_node, heapInsert] at hok
          have hinv2 : heapNilInv stx := ih _ _ _ _ hsub trivial
            (heapNilInv_of_components
              (accept_components hcm).1 (accept_components hcm).2 hinv)
          have hinv3 : heapNilInv { stx with heap := stx.heap ++
              [Ast.map (mapInsert (mapInsert [] head_atom head) tail_atom nil_atom)] } :=
            heapNilInv_insert _ hinv2
          cases hg : (stx.heap ++
              [Ast.map (mapInsert (mapInsert [] head_atom head) tail_atom nil_atom)])[curr_id]? with
          | none => simp only [hg] at hok; simp at hok
          | some a =>
            simp only [hg] at hok
            cases a with
            | map curr_map =>
              exact ih _ _ _ _ hok (heapNilInv_len_pos hinv2).ne'
                (heapNilInv_set curr_id _ hmode hinv3)
            | int x => simp at hok
            | float x => simp at hok
            | char x => simp at hok
            | string x => simp at hok
            | atom x => simp at hok

/-- `KartaFile::new`'s pre-parse setup evaluates to the canonical initial
atom table (`initAtoms`) and the one-node heap holding the `.nil` atom. -/
theorem KartaFile_new_unfold (s : String) :
    KartaFile.new s = match Parser.parse s.toList [Ast.atom 0] initAtoms with
      | .error e => .error e
      | .ok (root, st) => .ok ⟨st.atoms, root, st.heap⟩ := rfl

/-- Any document produced by `KartaFile::new` satisfies the `.nil` document
invariant: heap handle 0 is the `.nil` atom node and `.nil` is interned at
atom id 0. -/
theorem new_ok_inv {s : String} {f : KartaFile} (h : KartaFile.new s = .ok f) :
    f.ast_heap[0]? = some (Ast.atom 0) ∧ lookupAtom f.atoms ".nil" = some 0 := by
  rw [KartaFile_new_unfold] at h
  cases hp : Parser.parse s.toList [Ast.atom 0] initAtoms with
  | error e => rw [hp] at h; simp at h
  | ok p =>
    obtain ⟨root, st⟩ := p
    rw [hp] at h
    simp only [Except.ok.injEq] at h
    subst h
    unfold Parser.parse at hp
    cases ht : Tokenizer.tokenize s.toList with
    | error e => rw [ht] at hp; simp at hp
    | ok toks =>
      rw [ht] at hp
      have hinv0 : heapNilInv ⟨0, toks, [Ast.atom 0], initAtoms⟩ := by
        constructor
        · rfl
        · rfl
      exact parse_go_preserves_inv _ _ _ _ _ hp trivial hinv0

/-- `Tokenizer::tokenize` on a bare digit run, at the fuel the source
supplies. -/
theorem tokenize_digits_bare (d : Char) (ds : List Char)
    (hd : d ∈ digits) (hds : ∀ c ∈ ds, c ∈ digits) :
    Tokenizer.tokenize (d :: ds) = .ok [⟨d :: ds, .EndOfFile, ⟨1, ds.length + 1⟩⟩] := by
  unfold Tokenizer.tokenize
  have hf : 2 * (d :: ds).length + 2 = ds.length + (ds.length + 2) + 2 := by
    simp only [List.length_cons]
    omega
  rw [hf]
  exact tokenizeGo_digits_bare d ds hd hds _

/-- `Tokenizer::tokenize` on a digit run followed by a newline, at the fuel
the source supplies. -/
theorem tokenize_digits_nl (d : Char) (ds : List Char)
    (hd : d ∈ digits) (hds : ∀ c ∈ ds, c ∈ digits) :
    Tokenizer.tokenize (d :: ds ++ ['\n'])
      = .ok [⟨d :: ds, .Integer, ⟨1, ds.length + 1⟩⟩,
             ⟨['\n'], .EndOfFile, ⟨1, ds.length + 2⟩⟩] := by
  unfold Tokenizer.tokenize
  have hf : 2 * (d :: ds ++ ['\n']).length + 2 = ds.length + (ds.length + 2) + 4 := by
    simp only [List.length_cons, List.length_append, List.length_singleton,
      List.length_nil]
    omega
  rw [hf]
  exact tokenizeGo_digits_nl d ds hd hds _

end Lemmas

section Claims

/-- C1: for every query whose cursor is a successful (valid) handle, calling
`get_field` (`KartaQuery::get_atom`) with a field name that was never
interned anywhere in the document returns the query unchanged — the cursor
remains the same successful handle and no error is recorded (and no panic
occurs). -/
theorem C1_get_field_unknown_noop (q : KartaQuery) (h : Nat) (a : Ast)
    (field : String) (hcur : q.current_result = .ok h)
    (hvalid : q.file.ast_heap[h]? = some a)
    (hmiss : lookupAtom q.file.atoms field = Option.none) :
    q.get_atom field = some q := by
  simp only [KartaQuery.get_atom, hcur, hvalid, hmiss]

/-- Witness for C1 at a concrete document and field name. -/
theorem C1_witness :
    KartaQuery.get_atom ⟨⟨initAtoms, 1, [Ast.atom 0, Ast.int 7]⟩, .ok 1⟩ ".zzz"
      = some ⟨⟨initAtoms, 1, [Ast.atom 0, Ast.int 7]⟩, .ok 1⟩ :=
  C1_get_field_unknown_noop _ 1 (Ast.int 7) ".zzz" rfl rfl rfl

/-- C2: (1) `get_field` at a `Map` node whose atom exists but has no entry
for that key sets the cursor to AST handle 0; (2) in every document built by
`KartaFile::new`, heap handle 0 holds the `Atom` node for `.nil` (interned
first, at atom id 0), so the missing-key result resolves to the `.nil` atom
node. -/
theorem C2_missing_key_resolves_nil :
    (∀ (q : KartaQuery) (h : Nat) (m : List (Nat × Nat)) (field : String) (aid : Nat),
      q.current_result = .ok h →
      q.file.ast_heap[h]? = some (Ast.map m) →
      lookupAtom q.file.atoms field = some aid →
      mapGet m aid = Option.none →
      q.get_atom field = some { q with current_result := .ok 0 }) ∧
    (∀ (s : String) (f : KartaFile), KartaFile.new s = .ok f →
      f.ast_heap[0]? = some (Ast.atom 0) ∧ lookupAtom f.atoms ".nil" = some 0) := by
  constructor
  · intro q h m field aid hcur hvalid hatom hmg
    simp only [KartaQuery.get_atom, hcur, hvalid, hatom, hmg, Option.getD_none]
  · intro s f h
    exact new_ok_inv h

/-- Witness for C2: a map with no entry for the looked-up atom, and the
document parsed from `"1\n"`. -/
theorem C2_witness :
    KartaQuery.get_atom ⟨⟨initAtoms, 1, [Ast.atom 0, Ast.map []]⟩, .ok 1⟩ ".t"
      = some ⟨⟨initAtoms, 1, [Ast.atom 0, Ast.map []]⟩, .ok 0⟩ ∧
    ((⟨initAtoms, 1, [Ast.atom 0, Ast.int 1]⟩ : KartaFile).ast_heap[0]?
        = some (Ast.atom 0) ∧
      lookupAtom (⟨initAtoms, 1, [Ast.atom 0, Ast.int 1]⟩ : KartaFile).atoms ".nil"
        = some 0) :=
  ⟨C2_missing_key_resolves_nil.1 ⟨⟨initAtoms, 1, [Ast.atom 0, Ast.map []]⟩, .ok 1⟩
      1 [] ".t" 1 rfl rfl rfl rfl,
   C2_missing_key_resolves_nil.2 "1\n" ⟨initAtoms, 1, [Ast.atom 0, Ast.int 1]⟩ rfl⟩

/-- C8: once the cursor holds an error, `get_field` is a no-op returning the
query unchanged (without touching the document), and every terminal coercion
(`as_int`, `as_float`, `as_string`, `truthy`, `falsey`) returns exactly that
first recorded error string. -/
theorem C8_error_propagation (q : KartaQuery) (e : String) (field : String)
    (hcur : q.current_result = .error e) :
    q.get_atom field = some q ∧ q.as_int = .error (.err e) ∧
    q.as_float = .error (.err e) ∧ q.as_string = .error (.err e) ∧
    q.truthy = .error (.err e) ∧ q.falsey = .error (.err e) := by
  refine ⟨?_, ?_, ?_, ?_, ?_, ?_⟩ <;>
    simp [KartaQuery.get_atom, KartaQuery.as_int, KartaQuery.as_float,
      KartaQuery.as_string, KartaQuery.truthy, KartaQuery.falsey, hcur]

/-- Witness for C8 at a concrete errant query. -/
theorem C8_witness :
    KartaQuery.get_atom ⟨⟨initAtoms, 0, [Ast.atom 0]⟩, .error "boom"⟩ ".x"
        = some ⟨⟨initAtoms, 0, [Ast.atom 0]⟩, .error "boom"⟩ ∧
    KartaQuery.as_int ⟨⟨initAtoms, 0, [Ast.atom 0]⟩, .error "boom"⟩
        = .error (.err "boom") ∧
    KartaQuery.as_float ⟨⟨initAtoms, 0, [Ast.atom 0]⟩, .error "boom"⟩
        = .error (.err "boom") ∧
    KartaQuery.as_string ⟨⟨initAtoms, 0, [Ast.atom 0]⟩, .error "boom"⟩
        = .error (.err "boom") ∧
    KartaQuery.truthy ⟨⟨initAtoms, 0, [Ast.atom 0]⟩, .error "boom"⟩
        = .error (.err "boom") ∧
    KartaQuery.falsey ⟨⟨initAtoms, 0, [Ast.atom 0]⟩, .error "boom"⟩
        = .error (.err "boom") :=
  C8_error_propagation ⟨⟨initAtoms, 0, [Ast.atom 0]⟩, .error "boom"⟩ "boom" ".x" rfl

/-- C9: with a successful cursor at a valid handle, `truthy` is `Ok(false)`
exactly when the node is the `Atom` with atom handle 0 (`.nil`), `Ok(true)`
for any other atom and every non-`Atom` node; `falsey` is its boolean
negation; and both propagate an errant cursor's error identically. -/
theorem C9_truthy_falsey :
    (∀ (q : KartaQuery) (h : Nat) (a : Ast),
      q.current_result = .ok h → q.file.ast_heap[h]? = some a →
      q.truthy = .ok (match a with | Ast.atom x => x != 0 | _ => true) ∧
      q.falsey = .ok (!(match a with | Ast.atom x => x != 0 | _ => true)) ∧
      (q.truthy = .ok false ↔ a = Ast.atom 0)) ∧
    (∀ (q : KartaQuery) (e : String), q.current_result = .error e →
      q.truthy = .error (.err e) ∧ q.falsey = .error (.err e)) := by
  constructor
  · intro q h a hcur hvalid
    refine ⟨?_, ?_, ?_⟩ <;> cases a <;>
      simp [KartaQuery.truthy, KartaQuery.falsey, hcur, hvalid]
  · intro q e hcur
    constructor <;> simp [KartaQuery.truthy, KartaQuery.falsey, hcur]

/-- Witness for C9: the `.nil` atom node is falsy, another atom is truthy,
and an errant cursor's error is propagated. -/
theorem C9_witness :
    KartaQuery.truthy ⟨⟨initAtoms, 0, [Ast.atom 0]⟩, .ok 0⟩ = .ok false ∧
    KartaQuery.falsey ⟨⟨initAtoms, 0, [Ast.atom 0]⟩, .ok 0⟩ = .ok true ∧
    KartaQuery.truthy ⟨⟨initAtoms, 1, [Ast.atom 0, Ast.atom 1]⟩, .ok 1⟩ = .ok true ∧
    KartaQuery.truthy ⟨⟨initAtoms, 0, [Ast.atom 0]⟩, .error "boom"⟩
      = .error (.err "boom") :=
  ⟨(C9_truthy_falsey.1 ⟨⟨initAtoms, 0, [Ast.atom 0]⟩, .ok 0⟩ 0 (Ast.atom 0) rfl rfl).1,
   (C9_truthy_falsey.1 ⟨⟨initAtoms, 0, [Ast.atom 0]⟩, .ok 0⟩ 0 (Ast.atom 0) rfl rfl).2.1,
   (C9_truthy_falsey.1 ⟨⟨initAtoms, 1, [Ast.atom 0, Ast.atom 1]⟩, .ok 1⟩ 1
      (Ast.atom 1) rfl rfl).1,
   (C9_truthy_falsey.2 ⟨⟨initAtoms, 0, [Ast.atom 0]⟩, .error "boom"⟩ "boom" rfl).1⟩

/-- C3: evaluating the code on the failing input `"1 'a"` (an unterminated
char literal).  Contrary to the claim, no tokenization error is produced and
a document IS built: the tokenizer's unterminated-literal checks test
`self.eof()` inside a loop that only runs while `!self.eof()`, so they are
unreachable; the unterminated literal is silently folded into the final
`EndOfFile` token and `KartaFile::new` succeeds with root `1`. -/
theorem C3_unterminated_char_behavior :
    Except.map (fun f => (KartaFile.query f).as_int)
        (KartaFile.new (String.mk ['1', ' ', squote, 'a']))
      = .ok (.ok (.exact 1)) ∧
    Tokenizer.tokenize ['1', ' ', squote, 'a']
      = .ok [⟨['1'], .Integer, ⟨1, 1⟩⟩, ⟨[squote, 'a'], .EndOfFile, ⟨1, 4⟩⟩] :=
  ⟨rfl, rfl⟩

/-- C4 counterexample: tokenizing the bare text `"123"` emits NO `Integer`
token — the only token produced is the final `EndOfFile` token carrying the
digit text, so the claim that the digit run is emitted as an `Integer` token
at end-of-input is false. -/
theorem C4_counterexample :
    Tokenizer.tokenize ("123".toList) = .ok [⟨['1', '2', '3'], .EndOfFile, ⟨1, 3⟩⟩] ∧
    Except.map (List.filter fun t => t.kind == TokenKind.Integer)
        (Tokenizer.tokenize ("123".toList))
      = .ok [] :=
  ⟨rfl, rfl⟩

/-- C4 (amended): for every nonempty all-digit source text, reaching
end-of-input inside the digit run emits no `Integer` token — tokenize
returns exactly one token, the always-appended final `EndOfFile` token
(carrying the digit text); an `Integer` token for the run is emitted only
when a non-digit character (e.g. a trailing newline) follows it, in which
case the tokens are the `Integer` token followed by the final `EndOfFile`
token. -/
theorem C4_amended (ds : List Char) (hne : ds ≠ []) (hds : ∀ c ∈ ds, c ∈ digits) :
    Tokenizer.tokenize ds = .ok [⟨ds, .EndOfFile, ⟨1, ds.length⟩⟩] ∧
    Tokenizer.tokenize (ds ++ ['\n'])
      = .ok [⟨ds, .Integer, ⟨1, ds.length⟩⟩, ⟨['\n'], .EndOfFile, ⟨1, ds.length + 1⟩⟩] := by
  obtain ⟨d, ds2, rfl⟩ := List.exists_cons_of_ne_nil hne
  have hd : d ∈ digits := hds d (List.mem_cons_self d ds2)
  have hds2 : ∀ c ∈ ds2, c ∈ digits := fun c hc => hds c (List.mem_cons_of_mem d hc)
  constructor
  · simpa using tokenize_digits_bare d ds2 hd hds2
  · simpa using tokenize_digits_nl d ds2 hd hds2

/-- Witness for the amended C4 at the digit run `"42"`. -/
theorem C4_witness :
    Tokenizer.tokenize ['4', '2'] = .ok [⟨['4', '2'], .EndOfFile, ⟨1, 2⟩⟩] ∧
    Tokenizer.tokenize (['4', '2'] ++ ['\n'])
      = .ok [⟨['4', '2'], .Integer, ⟨1, 2⟩⟩, ⟨['\n'], .EndOfFile, ⟨1, 3⟩⟩] :=
  C4_amended ['4', '2'] (by decide) (by decide)

/-- C5 counterexample: the bare digit text `"1"` (no trailing character)
does not round-trip — `KartaFile::new` fails with a parse error because the
digit run is never flushed as an `Integer` token. -/
theorem C5_counterexample :
    KartaFile.new "1"
      = .error (.err "error: 1:1: expected an expression, got EndOfFile") := rfl

/-- `str::parse::<i64>` on a nonempty in-range digit run yields its decimal
value. -/
theorem parse_i64_digits (ds : List Char) (hne : ds ≠ [])
    (hds : ∀ c ∈ ds, c ∈ digits) (hbound : digitsVal ds ≤ i64Max) :
    parse_i64 ds = some (Int.ofNat (digitsVal ds)) := by
  have hall : ds.all Char.isDigit = true := by
    rw [List.all_eq_true]
    intro c hc
    exact (digit_facts (hds c hc)).1
  unfold parse_i64
  rw [if_neg hne, if_pos hall, if_pos hbound]

/-- C5 (amended): for every text `ds ++ "\n"` with `ds` matching `[0-9]+`
and decimal value at most `i64::MAX` (the trailing newline is what
`from_file` appends; without it the parse fails, and past `i64::MAX` the
source's `unwrap` panics), parsing then `as_int()` returns `Ok` of the exact
decimal value of the digits. -/
theorem C5_amended (ds : List Char) (hne : ds ≠ []) (hds : ∀ c ∈ ds, c ∈ digits)
    (hbound : digitsVal ds ≤ i64Max) :
    Except.map (fun f => (KartaFile.query f).as_int)
        (KartaFile.new (String.mk (ds ++ ['\n'])))
      = .ok (.ok (.exact (digitsVal ds))) := by
  obtain ⟨d, ds2, rfl⟩ := List.exists_cons_of_ne_nil hne
  have hd : d ∈ digits := hds d (List.mem_cons_self d ds2)
  have hds2 : ∀ c ∈ ds2, c ∈ digits := fun c hc => hds c (List.mem_cons_of_mem d hc)
  rw [KartaFile_new_unfold]
  unfold Parser.parse
  have hstl : (String.mk (d :: ds2 ++ ['\n'])).toList = d :: ds2 ++ ['\n'] := rfl
  rw [hstl, tokenize_digits_nl d ds2 hd hds2]
  have hpi := parse_i64_digits (d :: ds2) hne hds hbound
  simp only [parse_go, Parser.accept, List.getElem?_cons_zero, List.length_cons,
    List.length_singleton, hpi, heapInsert]
  simp [KartaFile.query, KartaQuery.as_int, Except.map, hpi]

/-- Witness for the amended C5 at the text `"42\n"`. -/
theorem C5_witness :
    Except.map (fun f => (KartaFile.query f).as_int)
        (KartaFile.new (String.mk (['4', '2'] ++ ['\n'])))
      = .ok (.ok (.exact 42)) :=
  C5_amended ['4', '2'] (by decide) (by decide) (by decide)

/-- C6: whenever `expect()` peeks a token whose kind differs from the
required kind, it returns exactly
`"error: <line>:<col>: expected <kind>, got <kind>"` built from the
offending token's recorded span; and any parse error propagates unchanged
out of `KartaFile::new`, which returns no document. -/
theorem C6_expect_error_format :
    (∀ (st : ParserSt) (kind : TokenKind) (t : Token),
      st.tokens[st.cursor]? = some t → t.kind ≠ kind →
      Parser.expect kind st = .error (.err ("error: " ++ toString t.span.line ++ ":"
        ++ toString t.span.col ++ ": expected " ++ kindDebug kind ++ ", got "
        ++ kindDebug t.kind))) ∧
    (∀ (s e : String),
      Parser.parse s.toList [Ast.atom 0] initAtoms = .error (.err e) →
      KartaFile.new s = .error (.err e)) := by
  constructor
  · intro st kind t hpk hne
    simp only [Parser.expect, Parser.accept, hpk]
    rw [if_neg hne]
  · intro s e hp
    rw [KartaFile_new_unfold, hp]

/-- Witness for C6: a mismatched `expect` at a concrete parser state, and a
concrete failing parse surfacing through `KartaFile::new`. -/
theorem C6_witness :
    Parser.expect .Assign ⟨0, [⟨['1'], .Integer, ⟨1, 1⟩⟩], [], []⟩
      = .error (.err "error: 1:1: expected Assign, got Integer") ∧
    KartaFile.new "[1\n"
      = .error (.err "error: 1:3: expected RightSquare, got EndOfFile") :=
  ⟨C6_expect_error_format.1 ⟨0, [⟨['1'], .Integer, ⟨1, 1⟩⟩], [], []⟩ .Assign
      ⟨['1'], .Integer, ⟨1, 1⟩⟩ rfl (by decide),
   C6_expect_error_format.2 "[1\n"
      "error: 1:3: expected RightSquare, got EndOfFile" rfl⟩

/-- C7 counterexample: the bare source `"[1, 2, 3]"` (no trailing newline)
does not parse at all — the closing `]` is never emitted at end-of-input, so
`KartaFile::new` returns a parse error and no list structure is built. -/
theorem C7_counterexample :
    KartaFile.new "[1, 2, 3]"
      = .error (.err "error: 1:9: expected RightSquare, got EndOfFile") := rfl

/-- C7 (amended): parsing `"[1, 2, 3]\n"` (the trailing newline being what
`from_file` appends) produces three `Map` cells, each with exactly the two
keys `.head` (atom 2) and `.tail` (atom 3); each `.tail` points at the next
cell and the last `.tail` is handle 0, the `.nil` atom node; the root is the
first cell, so walking `.head`, `.tail`, `.head`, ... recovers 1, 2, 3 in
order (and the walk past the last cell reaches the falsy `.nil` node);
parsing `"[]\n"` returns the `.nil` atom handle (0) as root. -/
theorem C7_amended :
    KartaFile.new "[1, 2, 3]\n" = .ok ⟨initAtoms, 2,
      [Ast.atom 0, Ast.int 1, Ast.map [(2, 1), (3, 4)], Ast.int 2,
       Ast.map [(2, 3), (3, 6)], Ast.int 3, Ast.map [(2, 5), (3, 0)]]⟩ ∧
    lookupAtom initAtoms ".head" = some 2 ∧
    lookupAtom initAtoms ".tail" = some 3 ∧
    Except.map (fun f => ((KartaFile.query f).get_atom ".head").map KartaQuery.as_int)
        (KartaFile.new "[1, 2, 3]\n")
      = .ok (some (.ok (.exact 1))) ∧
    Except.map (fun f => (((KartaFile.query f).get_atom ".tail").bind
        (fun q => q.get_atom ".head")).map KartaQuery.as_int)
        (KartaFile.new "[1, 2, 3]\n")
      = .ok (some (.ok (.exact 2))) ∧
    Except.map (fun f => ((((KartaFile.query f).get_atom ".tail").bind
        (fun q => q.get_atom ".tail")).bind (fun q => q.get_atom ".head")).map
          KartaQuery.as_int)
        (KartaFile.new "[1, 2, 3]\n")
      = .ok (some (.ok (.exact 3))) ∧
    Except.map (fun f => ((((KartaFile.query f).get_atom ".tail").bind
        (fun q => q.get_atom ".tail")).bind (fun q => q.get_atom ".tail")).map
          KartaQuery.truthy)
        (KartaFile.new "[1, 2, 3]\n")
      = .ok (some (.ok false)) ∧
    KartaFile.new "[]\n" = .ok ⟨initAtoms, 0, [Ast.atom 0]⟩ :=
  ⟨rfl, rfl, rfl, rfl, rfl, rfl, rfl, rfl⟩

/-- C10: `Parser::parse` returns as soon as one top-level expression has
been parsed, with no check that the next token is `EndOfFile`: whatever
parser state `parse_expression` ends in (trailing tokens included),
`KartaFile::new` succeeds with that expression as root.  Concretely,
`"1 2\n"` tokenizes to two `Integer` tokens, yet parses successfully to the
document whose root is `1` — the trailing `2` is silently ignored. -/
theorem C10_trailing_tokens_ignored :
    (∀ (s : String) (toks : List Token) (r : Nat) (st2 : ParserSt),
      Tokenizer.tokenize s.toList = .ok toks →
      parse_go (2 * toks.length + 2) .expr ⟨0, toks, [Ast.atom 0], initAtoms⟩
        = .ok (r, st2) →
      KartaFile.new s = .ok ⟨st2.atoms, r, st2.heap⟩) ∧
    Tokenizer.tokenize ("1 2\n".toList)
      = .ok [⟨['1'], .Integer, ⟨1, 1⟩⟩, ⟨['2'], .Integer, ⟨1, 3⟩⟩,
             ⟨['\n'], .EndOfFile, ⟨1, 4⟩⟩] ∧
    KartaFile.new "1 2\n" = .ok ⟨initAtoms, 1, [Ast.atom 0, Ast.int 1]⟩ ∧
    (KartaFile.query ⟨initAtoms, 1, [Ast.atom 0, Ast.int 1]⟩).as_int
      = .ok (.exact 1) := by
  refine ⟨?_, rfl, rfl, rfl⟩
  intro s toks r st2 ht hp
  rw [KartaFile_new_unfold]
  unfold Parser.parse
  rw [ht]
  simp only [hp]

/-- Witness for C10's general part at the input `"1 2\n"`, whose token
stream still holds a second `Integer` token (and then `EndOfFile`) when the
parse returns. -/
theorem C10_witness :
    KartaFile.new "1 2\n" = .ok ⟨initAtoms, 1, [Ast.atom 0, Ast.int 1]⟩ :=
  C10_trailing_tokens_ignored.1 "1 2\n"
    [⟨['1'], .Integer, ⟨1, 1⟩⟩, ⟨['2'], .Integer, ⟨1, 3⟩⟩, ⟨['\n'], .EndOfFile, ⟨1, 4⟩⟩]
    1
    ⟨1, [⟨['1'], .Integer, ⟨1, 1⟩⟩, ⟨['2'], .Integer, ⟨1, 3⟩⟩, ⟨['\n'], .EndOfFile, ⟨1, 4⟩⟩],
     [Ast.atom 0, Ast.int 1], initAtoms⟩ rfl rfl

end Claims

end Karta
